import Mathlib

/-
Verification development for translate_json_with_deepl.py.

The Python program is shallowly embedded as follows:

* Text is modelled as `List Char`.  Python `str.strip()` / `str.split()`
  (with their ASCII whitespace set) become `pyStrip` / `wordCount`.
* `str.replace(old, new)` (left-to-right, non-overlapping, all occurrences,
  always called with a non-empty `old` in this program) becomes `pyReplace`.
* `re.findall(r"\x7b\x7b.*?\x7d\x7d", text)` becomes `findPlaceholders`:
  a left-to-right scan that, at each literal `{{`, takes the shortest
  newline-free stretch to the next `}}`, and otherwise advances one
  character, never overlapping matches.
* Python dicts keyed by placeholder text become insertion-ordered
  association lists (`dictInsert`, `buildTempTokens`); a repeated key keeps
  its position and receives the last-assigned value, as in Python.
* JSON values become the mutual inductive `Json` / `JArr` / `JObj`
  (objects are ordered key-value sequences; numbers, booleans and null are
  the opaque non-string scalars the program passes through untouched).
* The DeepL remote call is an oracle `Nat → List Char → Option (List Char × Int)`:
  the n-th call made in the session either returns (translated text,
  billed character count) or fails with a `DeepLException` (`none`).
  The target language and context arguments are constant for a whole run
  and are absorbed into the oracle.
* The mutable translator object becomes `EngineState`, threaded through
  `translate_dict`; besides `total_char_count` it records the number of
  remote calls and the list of back-off sleep durations, which are the
  observable effects the specification talks about.
* `get_json_indentation` consumes the outcome of `readlines` (`ReadOutcome`);
  an uncaught Python exception is modelled as `Except.error`.
-/

/-- Python's whitespace test for `str.strip` / `str.split` (ASCII part). -/
def isPySpace (c : Char) : Bool :=
  c = ' ' || c = '\t' || c = '\n' || c = '\r' || c = '\x0b' || c = '\x0c'

/-- Python `text.strip()`. -/
def pyStrip (s : List Char) : List Char :=
  ((s.dropWhile isPySpace).reverse.dropWhile isPySpace).reverse

/-- Helper for `wordCount`: count maximal non-whitespace runs, tracking
whether we are currently inside a word. -/
def wordCountAux : Bool → List Char → Nat
  | _, [] => 0
  | inWord, c :: rest =>
      if isPySpace c then wordCountAux false rest
      else (if inWord then 0 else 1) + wordCountAux true rest

/-- Python `len(text.split())`: number of whitespace-delimited tokens. -/
def wordCount (s : List Char) : Nat := wordCountAux false s

/-- Boolean test that `pat` is an initial segment of `s`. -/
def listStartsWith : List Char → List Char → Bool
  | [], _ => true
  | _ :: _, [] => false
  | p :: ps, c :: cs => p = c && listStartsWith ps cs

/-- Fuelled worker for `pyReplace`.  Every step strictly shortens the text,
so fuel equal to the text length always suffices; the fuel only serves to
make the recursion structural (and hence kernel-computable). -/
def pyReplaceFuel (pat rep : List Char) : Nat → List Char → List Char
  | _, [] => []
  | 0, s => s
  | fuel + 1, c :: s =>
      if pat ≠ [] ∧ listStartsWith pat (c :: s) = true then
        rep ++ pyReplaceFuel pat rep fuel ((c :: s).drop pat.length)
      else
        c :: pyReplaceFuel pat rep fuel s

/-- Python `text.replace(pat, rep)`: replace all non-overlapping occurrences
of `pat`, scanning left to right.  The program only ever calls `replace`
with a non-empty pattern (a `\x7b\x7b...\x7d\x7d` placeholder or an `@@i@@` token);
for an empty pattern this model returns the text unchanged. -/
def pyReplace (pat rep s : List Char) : List Char :=
  pyReplaceFuel pat rep s.length s

/-- Scan for the closing `\x7d\x7d` of a placeholder: the regex fragment `.*?\x7d\x7d`,
where `.` matches anything but a newline and `*?` is non-greedy.  Returns
the length of the matched interior, or `none` when no `\x7d\x7d` is reachable. -/
def scanClose : List Char → Option Nat
  | '}' :: '}' :: _ => some 0
  | '\n' :: _ => none
  | _ :: rest => (scanClose rest).map (· + 1)
  | [] => none

/-- Fuelled worker for `findPlaceholders`.  Every step strictly shortens
the scanned text, so fuel equal to the text length always suffices; the
fuel only makes the recursion structural. -/
def findPlaceholdersFuel : Nat → List Char → List (List Char)
  | _, [] => []
  | 0, _ => []
  | fuel + 1, '{' :: '{' :: rest =>
      match scanClose rest with
      | some k =>
          ('{' :: '{' :: (rest.take k ++ ['}', '}'])) ::
            findPlaceholdersFuel fuel (rest.drop (k + 2))
      | none => findPlaceholdersFuel fuel ('{' :: rest)
  | fuel + 1, _ :: rest => findPlaceholdersFuel fuel rest

/-- All matches of `re.findall(r"\x7b\x7b.*?\x7d\x7d", text)` in order: at each
literal `{{` take the shortest newline-free stretch to the following `}}`;
matches never overlap; on failure the scan advances one character. -/
def findPlaceholders (s : List Char) : List (List Char) :=
  findPlaceholdersFuel s.length s

/-- Decimal digit character. -/
def digitChar (n : Nat) : Char := Char.ofNat (48 + n)

/-- Fuelled worker for `natDigits`; `n / 10 < n` for `n ≥ 10`, so fuel
equal to the number itself always suffices. -/
def natDigitsFuel (fuel n : Nat) : List Char :=
  if n < 10 then [digitChar n]
  else
    match fuel with
    | 0 => [digitChar (n % 10)]
    | f + 1 => natDigitsFuel f (n / 10) ++ [digitChar (n % 10)]

/-- Decimal representation of a natural number, as Python `str(i)`. -/
def natDigits (n : Nat) : List Char := natDigitsFuel n n

/-- The temporary token Python builds with `f"@@{i}@@"`. -/
def tempToken (i : Nat) : List Char := '@' :: '@' :: (natDigits i ++ ['@', '@'])

/-- Insertion into a Python dict modelled as an ordered association list:
an existing key keeps its position and gets the new value, a new key is
appended at the end. -/
def dictInsert (m : List (List Char × Nat)) (k : List Char) (v : Nat) :
    List (List Char × Nat) :=
  match m with
  | [] => [(k, v)]
  | (k', v') :: rest =>
      if k' = k then (k', v) :: rest else (k', v') :: dictInsert rest k v

/-- Fold of `enumerate(placeholders)` into the token dict, starting at
index `i`. -/
def buildTokensFrom : Nat → List (List Char) → List (List Char × Nat) →
    List (List Char × Nat)
  | _, [], m => m
  | i, ph :: rest, m => buildTokensFrom (i + 1) rest (dictInsert m ph i)

/-- The dict comprehension `{ph: f"@@{i}@@" for i, ph in enumerate(placeholders)}`,
with tokens represented by their index. -/
def buildTempTokens (phs : List (List Char)) : List (List Char × Nat) :=
  buildTokensFrom 0 phs []

/-- `replace_placeholders`: find all placeholders, build the token dict,
and replace each distinct placeholder text (all of its occurrences) by its
assigned token, in dict order. -/
def replace_placeholders (text : List Char) :
    List Char × List (List Char × Nat) :=
  let placeholders := findPlaceholders text
  let temp_tokens := buildTempTokens placeholders
  (temp_tokens.foldl (fun t e => pyReplace e.1 (tempToken e.2) t) text,
   temp_tokens)

/-- `restore_placeholders`: replace each token back by its placeholder
text, in dict order. -/
def restore_placeholders (text : List Char)
    (temp_tokens : List (List Char × Nat)) : List Char :=
  temp_tokens.foldl (fun t e => pyReplace (tempToken e.2) e.1 t) text

mutual
/-- JSON values as produced by `json.load`: objects, arrays, strings, and
the opaque non-string scalars (numbers, booleans, null) the program never
touches. -/
inductive Json where
  | str : List Char → Json
  | intVal : Int → Json
  | boolVal : Bool → Json
  | null : Json
  | arr : JArr → Json
  | obj : JObj → Json

/-- An ordered JSON array. -/
inductive JArr where
  | nil : JArr
  | cons : Json → JArr → JArr

/-- An ordered JSON object (keys in insertion order, as Python dicts). -/
inductive JObj where
  | nil : JObj
  | cons : List Char → Json → JObj → JObj
end

/-- Build a string leaf from a string literal. -/
def jstr (s : String) : Json := Json.str s.data

mutual
/-- `count_words_and_phrases_in_dict`: phrase and word counts of a JSON
value; a dict contributes the counts of its values, a list those of its
items, a string with non-empty strip contributes one phrase and its
whitespace-delimited word count, everything else contributes nothing. -/
def count_words_and_phrases_in_dict : Json → Nat × Nat
  | .obj o => countObjVals o
  | .arr a => countArrItems a
  | .str s =>
      if (pyStrip s).isEmpty = false then (1, wordCount s) else (0, 0)
  | _ => (0, 0)

/-- Accumulate counts over the values of an object. -/
def countObjVals : JObj → Nat × Nat
  | .nil => (0, 0)
  | .cons _ v rest =>
      let pw := count_words_and_phrases_in_dict v
      let pw' := countObjVals rest
      (pw.1 + pw'.1, pw.2 + pw'.2)

/-- Accumulate counts over the items of an array. -/
def countArrItems : JArr → Nat × Nat
  | .nil => (0, 0)
  | .cons v rest =>
      let pw := count_words_and_phrases_in_dict v
      let pw' := countArrItems rest
      (pw.1 + pw'.1, pw.2 + pw'.2)
end

/-- The remote translation capability: the n-th `translate_text` call of a
session either succeeds with (translated text, billed characters) or fails
with a `DeepLException`. -/
abbrev Oracle := Nat → List Char → Option (List Char × Int)

/-- Observable state of a `JSONTranslatorDeepL` session: the cumulative
billed-character counter, plus the instrumentation the specification talks
about (how many remote calls were made, and the back-off sleeps in order). -/
structure EngineState where
  callCount : Nat
  total_char_count : Int
  sleeps : List Nat
deriving Repr, DecidableEq

/-- The state `__init__` establishes: zero characters billed, no calls
made, no sleeps performed. -/
def initEngineState : EngineState :=
  { callCount := 0, total_char_count := 0, sleeps := [] }

/-- The retry loop of `translate_dict`: up to `remaining` further attempts,
sleeping `timeout` then retrying with `min(timeout * 5, 60)` after each
failure that is not the last; a success adds the billed characters to the
counter and returns the translated text. -/
def attemptLoop (oracle : Oracle) (text : List Char) :
    Nat → Nat → EngineState → Option (List Char) × EngineState
  | 0, _, st => (none, st)
  | remaining + 1, timeout, st =>
      match oracle st.callCount text with
      | some (translated, c) =>
          (some translated,
            { st with
                callCount := st.callCount + 1,
                total_char_count := st.total_char_count + c })
      | none =>
          let st1 : EngineState := { st with callCount := st.callCount + 1 }
          if remaining = 0 then (none, st1)
          else
            attemptLoop oracle text remaining (min (timeout * 5) 60)
              { st1 with sleeps := st1.sleeps ++ [timeout] }

mutual
/-- `translate_dict`: rebuild a JSON value, translating every string leaf
whose strip is non-empty.  A dict maps to a dict over the same keys in the
same order, a list item-wise.  A translatable leaf is placeholder-protected
and then, unless simulating, sent through the retry loop (5 attempts,
back-off starting at 1 and multiplied by 5 up to the cap 60): on success
the placeholders are restored in the translated text, on exhaustion the
original leaf is returned.  The simulation branch only computes the
protected text for the progress display and falls through to returning the
input unchanged. -/
def translate_dict (simulation : Bool) (oracle : Oracle) :
    Json → EngineState → Json × EngineState
  | .obj o, st =>
      let r := translateObj simulation oracle o st
      (.obj r.1, r.2)
  | .arr a, st =>
      let r := translateArr simulation oracle a st
      (.arr r.1, r.2)
  | .str s, st =>
      if (pyStrip s).isEmpty = false then
        let pr := replace_placeholders s
        if simulation = false then
          match attemptLoop oracle pr.1 5 1 st with
          | (some translated, st') =>
              (.str (restore_placeholders translated pr.2), st')
          | (none, st') => (.str s, st')
        else
          (.str s, st)
      else (.str s, st)
  | d, st => (d, st)

/-- Translate the values of an object left to right, threading the state. -/
def translateObj (simulation : Bool) (oracle : Oracle) :
    JObj → EngineState → JObj × EngineState
  | .nil, st => (.nil, st)
  | .cons k v rest, st =>
      let rv := translate_dict simulation oracle v st
      let rr := translateObj simulation oracle rest rv.2
      (.cons k rv.1 rr.1, rr.2)

/-- Translate the items of an array left to right, threading the state. -/
def translateArr (simulation : Bool) (oracle : Oracle) :
    JArr → EngineState → JArr × EngineState
  | .nil, st => (.nil, st)
  | .cons v rest, st =>
      let rv := translate_dict simulation oracle v st
      let rr := translateArr simulation oracle rest rv.2
      (.cons rv.1 rr.1, rr.2)
end

mutual
/-- Blank out every string leaf, keeping all structure: two values have the
same objects (keys and order), array lengths and non-string scalars exactly
when their erasures agree. -/
def eraseStrings : Json → Json
  | .str _ => .str []
  | .obj o => .obj (eraseStringsObj o)
  | .arr a => .arr (eraseStringsArr a)
  | d => d

/-- Erase the string leaves below an object. -/
def eraseStringsObj : JObj → JObj
  | .nil => .nil
  | .cons k v rest => .cons k (eraseStrings v) (eraseStringsObj rest)

/-- Erase the string leaves below an array. -/
def eraseStringsArr : JArr → JArr
  | .nil => .nil
  | .cons v rest => .cons (eraseStrings v) (eraseStringsArr rest)
end

/-- Outcome of `open(...).readlines()`: either the list of lines (each with
its trailing newline) or a read failure caught by the handlers. -/
inductive ReadOutcome where
  | failure : ReadOutcome
  | success : List (List Char) → ReadOutcome

/-- `get_json_indentation`: on a read failure return the default 4;
otherwise collect the length of every non-empty leading-whitespace run
(the regex `^(\s+)` also counts a line consisting only of its newline) and
take the minimum.  `min` of an empty collection raises `ValueError`, which
no handler catches: this is modelled by `Except.error`. -/
def get_json_indentation : ReadOutcome → Except String Nat
  | .failure => .ok 4
  | .success lines =>
      let indent_counts := lines.filterMap fun line =>
        let n := (line.takeWhile isPySpace).length
        if n > 0 then some n else none
      match indent_counts with
      | [] => .error "ValueError: min() arg is an empty sequence"
      | x :: xs => .ok (xs.foldl Nat.min x)

/-! ### Simulation mode -/

mutual
/-- Helper: with the simulation flag set, `translate_dict` returns its
input and leaves the state untouched (the simulation branch falls through
to `return data`). -/
theorem translate_dict_sim (oracle : Oracle) (d : Json) (st : EngineState) :
    translate_dict true oracle d st = (d, st) := by
  cases d with
  | str s => simp [translate_dict]
  | intVal n => simp [translate_dict]
  | boolVal b => simp [translate_dict]
  | null => simp [translate_dict]
  | arr a => simp [translate_dict, translateArr_sim oracle a st]
  | obj o => simp [translate_dict, translateObj_sim oracle o st]

/-- Helper: object version of `translate_dict_sim`. -/
theorem translateObj_sim (oracle : Oracle) (o : JObj) (st : EngineState) :
    translateObj true oracle o st = (o, st) := by
  cases o with
  | nil => simp [translateObj]
  | cons k v rest =>
      simp [translateObj, translate_dict_sim oracle v st,
        translateObj_sim oracle rest st]

/-- Helper: array version of `translate_dict_sim`. -/
theorem translateArr_sim (oracle : Oracle) (a : JArr) (st : EngineState) :
    translateArr true oracle a st = (a, st) := by
  cases a with
  | nil => simp [translateArr]
  | cons v rest =>
      simp [translateArr, translate_dict_sim oracle v st,
        translateArr_sim oracle rest st]
end

/-- C6: with simulation enabled, `translate_dict` is the identity: the
returned value is exactly the input value (and the session state is left
untouched), because the simulation branch falls through to returning the
original data unchanged. -/
theorem translate_simulation_identity (oracle : Oracle) (d : Json)
    (st : EngineState) : translate_dict true oracle d st = (d, st) :=
  translate_dict_sim oracle d st

/-- C5 (counterexample): on the translatable leaf `"Hello {{name}}!"`,
whose placeholder-protected form is `"Hello @@0@@!"`, simulation mode does
not return the protected text: it returns the original leaf, so no
protection token ever appears in the output. -/
theorem simulation_no_token_leak_cex :
    (replace_placeholders "Hello \x7b\x7bname\x7d\x7d!".data).1
        = "Hello @@0@@!".data ∧
    (translate_dict true (fun _ _ => none) (jstr "Hello \x7b\x7bname\x7d\x7d!")
        initEngineState).1 = jstr "Hello \x7b\x7bname\x7d\x7d!" ∧
    "Hello \x7b\x7bname\x7d\x7d!".data ≠ "Hello @@0@@!".data :=
  ⟨by decide, rfl, by decide⟩

/-- C5 (amended): with simulation enabled, `translate_dict` on a
translatable leaf skips the remote call and returns the original leaf
unchanged; the placeholder-protected text is computed only for the
progress display and never reaches the returned value. -/
theorem simulation_returns_original_leaf (oracle : Oracle) (st : EngineState)
    (s : List Char) (hs : (pyStrip s).isEmpty = false) :
    translate_dict true oracle (.str s) st = (.str s, st) := by
  simp [translate_dict]

/-- C5 witness: the amended statement applied to the leaf
`"Hello {{name}}!"`. -/
theorem simulation_returns_original_leaf_witness :
    (pyStrip "Hello \x7b\x7bname\x7d\x7d!".data).isEmpty = false ∧
    translate_dict true (fun _ _ => none) (jstr "Hello \x7b\x7bname\x7d\x7d!")
        initEngineState = (jstr "Hello \x7b\x7bname\x7d\x7d!", initEngineState) :=
  ⟨by decide,
   simulation_returns_original_leaf (fun _ _ => none) initEngineState
     "Hello \x7b\x7bname\x7d\x7d!".data (by decide)⟩

/-! ### Structural isomorphism -/

mutual
/-- Helper: translation preserves the string-erased skeleton of a value. -/
theorem eraseStrings_translate (simulation : Bool) (oracle : Oracle)
    (d : Json) (st : EngineState) :
    eraseStrings (translate_dict simulation oracle d st).1 = eraseStrings d := by
  cases d with
  | str s =>
      simp only [translate_dict]
      split
      · split
        · split
          · simp [eraseStrings]
          · simp [eraseStrings]
        · simp [eraseStrings]
      · simp [eraseStrings]
  | intVal n => simp [translate_dict]
  | boolVal b => simp [translate_dict]
  | null => simp [translate_dict]
  | arr a =>
      simp [translate_dict, eraseStrings,
        eraseStringsArr_translate simulation oracle a st]
  | obj o =>
      simp [translate_dict, eraseStrings,
        eraseStringsObj_translate simulation oracle o st]

/-- Helper: object version of `eraseStrings_translate`; in particular the
keys and their order are preserved. -/
theorem eraseStringsObj_translate (simulation : Bool) (oracle : Oracle)
    (o : JObj) (st : EngineState) :
    eraseStringsObj (translateObj simulation oracle o st).1
      = eraseStringsObj o := by
  cases o with
  | nil => simp [translateObj]
  | cons k v rest =>
      simp [translateObj, eraseStringsObj,
        eraseStrings_translate simulation oracle v st,
        eraseStringsObj_translate simulation oracle rest
          (translate_dict simulation oracle v st).2]

/-- Helper: array version of `eraseStrings_translate`; in particular the
length is preserved. -/
theorem eraseStringsArr_translate (simulation : Bool) (oracle : Oracle)
    (a : JArr) (st : EngineState) :
    eraseStringsArr (translateArr simulation oracle a st).1
      = eraseStringsArr a := by
  cases a with
  | nil => simp [translateArr]
  | cons v rest =>
      simp [translateArr, eraseStringsArr,
        eraseStrings_translate simulation oracle v st,
        eraseStringsArr_translate simulation oracle rest
          (translate_dict simulation oracle v st).2]
end

/-- C1: for every JSON value, every oracle and every state, the translated
value has the same string-erased skeleton as the input: identical object
keys in identical order, identical array lengths, and identical non-string
scalar values at every position; only string leaves may change. -/
theorem translate_dict_preserves_structure (simulation : Bool)
    (oracle : Oracle) (d : Json) (st : EngineState) :
    eraseStrings (translate_dict simulation oracle d st).1 = eraseStrings d :=
  eraseStrings_translate simulation oracle d st

/-! ### Retry exhaustion and back-off -/

/-- Helper: with an always-failing oracle, the retry loop makes its 5
attempts, sleeps 1, 5, 25 and 60 time units between them, bills nothing,
and gives up. -/
theorem attemptLoop_allFail (oracle : Oracle) (text : List Char)
    (hfail : ∀ n t, oracle n t = none) (st : EngineState) :
    attemptLoop oracle text 5 1 st =
      (none,
        { callCount := st.callCount + 5,
          total_char_count := st.total_char_count,
          sleeps := st.sleeps ++ [1, 5, 25, 60] }) := by
  simp [attemptLoop, hfail]

/-- C3: if the remote capability fails on every call, `translate_dict` on a
translatable leaf returns the original leaf unchanged, leaves the
cumulative billed-character counter untouched, and makes exactly 5 remote
attempts; the failure never escapes the leaf (the model is a total
function returning the original value). -/
theorem translate_retry_exhaustion (oracle : Oracle) (st : EngineState)
    (s : List Char) (hfail : ∀ n t, oracle n t = none)
    (hs : (pyStrip s).isEmpty = false) :
    (translate_dict false oracle (.str s) st).1 = .str s ∧
    (translate_dict false oracle (.str s) st).2.total_char_count
      = st.total_char_count ∧
    (translate_dict false oracle (.str s) st).2.callCount
      = st.callCount + 5 := by
  simp [translate_dict, hs, attemptLoop_allFail oracle _ hfail st]

/-- C3 witness: retry exhaustion on the concrete leaf `"hi"` from a fresh
session. -/
theorem translate_retry_exhaustion_witness :
    (translate_dict false (fun _ _ => none) (.str "hi".data)
        initEngineState).1 = .str "hi".data ∧
    (translate_dict false (fun _ _ => none) (.str "hi".data)
        initEngineState).2.total_char_count
      = initEngineState.total_char_count ∧
    (translate_dict false (fun _ _ => none) (.str "hi".data)
        initEngineState).2.callCount = initEngineState.callCount + 5 :=
  translate_retry_exhaustion (fun _ _ => none) initEngineState "hi".data
    (fun _ _ => rfl) (by decide)

/-- C4: when all 5 attempts on one leaf fail, exactly four sleeps occur and
their durations are exactly 1, 5, 25, 60 in that order (multiplicative
back-off by factor 5 from 1, capped at 60), never exceeding 60. -/
theorem translate_backoff_sequence (oracle : Oracle) (st : EngineState)
    (s : List Char) (hfail : ∀ n t, oracle n t = none)
    (hs : (pyStrip s).isEmpty = false) :
    (translate_dict false oracle (.str s) st).2.sleeps
        = st.sleeps ++ [1, 5, 25, 60] ∧
    [1, 5, 25, 60].length = 4 ∧
    ∀ x ∈ [1, 5, 25, 60], x ≤ 60 := by
  refine ⟨?_, rfl, by decide⟩
  simp [translate_dict, hs, attemptLoop_allFail oracle _ hfail st]

/-- C4 witness: the back-off sequence observed on the concrete leaf `"hi"`
from a fresh session. -/
theorem translate_backoff_sequence_witness :
    (translate_dict false (fun _ _ => none) (.str "hi".data)
        initEngineState).2.sleeps = initEngineState.sleeps ++ [1, 5, 25, 60] ∧
    [1, 5, 25, 60].length = 4 ∧
    ∀ x ∈ [1, 5, 25, 60], x ≤ 60 :=
  translate_backoff_sequence (fun _ _ => none) initEngineState "hi".data
    (fun _ _ => rfl) (by decide)

/-! ### Tree counter -/

/-- C7: `count_words_and_phrases_in_dict` sums pairwise over object values
(keys never contribute, witnessed by invariance under renaming a key) and
over array items; a string whose strip is non-empty contributes one phrase
and its whitespace-token count, every other leaf contributes `(0, 0)`; on
the object `{"a": "hello world", "b": "  "}` it returns `(1, 2)`. -/
theorem count_characterization :
    count_words_and_phrases_in_dict (.obj .nil) = (0, 0) ∧
    (∀ (k : List Char) (v : Json) (rest : JObj),
        count_words_and_phrases_in_dict (.obj (.cons k v rest)) =
          ((count_words_and_phrases_in_dict v).1
             + (count_words_and_phrases_in_dict (.obj rest)).1,
           (count_words_and_phrases_in_dict v).2
             + (count_words_and_phrases_in_dict (.obj rest)).2)) ∧
    (∀ (k k' : List Char) (v : Json) (rest : JObj),
        count_words_and_phrases_in_dict (.obj (.cons k v rest)) =
          count_words_and_phrases_in_dict (.obj (.cons k' v rest))) ∧
    count_words_and_phrases_in_dict (.arr .nil) = (0, 0) ∧
    (∀ (v : Json) (rest : JArr),
        count_words_and_phrases_in_dict (.arr (.cons v rest)) =
          ((count_words_and_phrases_in_dict v).1
             + (count_words_and_phrases_in_dict (.arr rest)).1,
           (count_words_and_phrases_in_dict v).2
             + (count_words_and_phrases_in_dict (.arr rest)).2)) ∧
    (∀ s : List Char,
        count_words_and_phrases_in_dict (.str s) =
          if (pyStrip s).isEmpty = false then (1, wordCount s) else (0, 0)) ∧
    (∀ n : Int, count_words_and_phrases_in_dict (.intVal n) = (0, 0)) ∧
    (∀ b : Bool, count_words_and_phrases_in_dict (.boolVal b) = (0, 0)) ∧
    count_words_and_phrases_in_dict .null = (0, 0) ∧
    count_words_and_phrases_in_dict
        (.obj (.cons "a".data (jstr "hello world")
          (.cons "b".data (jstr "  ") .nil))) = (1, 2) :=
  ⟨rfl, fun _ _ _ => rfl, fun _ _ _ _ => rfl, rfl, fun _ _ => rfl,
   fun _ => rfl, fun _ => rfl, fun _ => rfl, rfl, by decide⟩

/-! ### Indentation sniffing -/

/-- C10: `get_json_indentation` returns the default 4 on a read failure and
the minimum leading-whitespace run width when indented lines exist, but on
a file with no indented lines at all it raises an uncaught `ValueError`
(`min()` of an empty sequence) instead of returning 4: the safety claim
fails on such files. -/
theorem get_json_indentation_empty_raises :
    get_json_indentation .failure = .ok 4 ∧
    get_json_indentation (.success ["\x7b\x7d".data]) =
      .error "ValueError: min() arg is an empty sequence" ∧
    get_json_indentation
        (.success ["\x7b".data, "    \"a\": 1,".data, "  \"b\": 2".data]) =
      .ok 2 :=
  ⟨rfl, rfl, rfl⟩

/-! ### Token dict: one entry per distinct text, last index wins -/

/-- Association lookup in the token dict. -/
def lookupD : List (List Char × Nat) → List Char → Option Nat
  | [], _ => none
  | (k, v) :: rest, ph => if k = ph then some v else lookupD rest ph

/-- Index of the last occurrence of `ph` in a list, if any. -/
def lastPos : List (List Char) → List Char → Option Nat
  | [], _ => none
  | p :: rest, ph =>
      match lastPos rest ph with
      | some j => some (j + 1)
      | none => if p = ph then some 0 else none

/-- Helper: inserting an existing key overwrites its value in place. -/
theorem lookupD_dictInsert_self (m : List (List Char × Nat)) (k : List Char)
    (v : Nat) : lookupD (dictInsert m k v) k = some v := by
  induction m with
  | nil => simp [dictInsert, lookupD]
  | cons e rest ih =>
      obtain ⟨k', v'⟩ := e
      by_cases h : k' = k
      · simp [dictInsert, lookupD, h]
      · simp [dictInsert, lookupD, h, ih]

/-- Helper: insertion does not disturb other keys. -/
theorem lookupD_dictInsert_other (m : List (List Char × Nat))
    (k ph : List Char) (v : Nat) (h : k ≠ ph) :
    lookupD (dictInsert m k v) ph = lookupD m ph := by
  induction m with
  | nil =>
      simp only [dictInsert, lookupD]
      rw [if_neg h]
  | cons e rest ih =>
      obtain ⟨k', v'⟩ := e
      simp only [dictInsert]
      by_cases hk : k' = k
      · subst hk
        rw [if_pos rfl]
        simp only [lookupD]
        rw [if_neg h, if_neg h]
      · rw [if_neg hk]
        simp only [lookupD]
        by_cases hp : k' = ph
        · rw [if_pos hp, if_pos hp]
        · rw [if_neg hp, if_neg hp, ih]

/-- Helper: a lookup in the dict built from `enumerate` starting at `i`
yields `i` plus the last position of the key, falling back to the starting
dict for absent keys. -/
theorem lookupD_buildTokensFrom (phs : List (List Char)) :
    ∀ (i : Nat) (m : List (List Char × Nat)) (ph : List Char),
      lookupD (buildTokensFrom i phs m) ph =
        match lastPos phs ph with
        | some j => some (i + j)
        | none => lookupD m ph := by
  induction phs with
  | nil => intro i m ph; simp [buildTokensFrom, lastPos]
  | cons p rest ih =>
      intro i m ph
      simp only [buildTokensFrom, lastPos, ih]
      cases hl : lastPos rest ph with
      | some j => simp [Nat.add_assoc, Nat.add_comm 1 j]
      | none =>
          by_cases hp : p = ph
          · subst hp
            simp [lookupD_dictInsert_self]
          · simp [hp, lookupD_dictInsert_other m p ph i hp]

/-- Helper: the keys of the dict after an insertion. -/
theorem dictInsert_keys (m : List (List Char × Nat)) (k : List Char)
    (v : Nat) :
    (dictInsert m k v).map Prod.fst =
      if k ∈ m.map Prod.fst then m.map Prod.fst else m.map Prod.fst ++ [k] := by
  induction m with
  | nil => simp [dictInsert]
  | cons e rest ih =>
      obtain ⟨k', v'⟩ := e
      by_cases h : k' = k
      · simp [dictInsert, h]
      · have hne : ¬k = k' := fun hh => h hh.symm
        by_cases hm : k ∈ rest.map Prod.fst <;>
          simp [dictInsert, h, ih, hm, hne, List.mem_cons]

/-- Helper: building the token dict preserves distinctness of its keys. -/
theorem buildTokensFrom_keys_nodup (phs : List (List Char)) :
    ∀ (i : Nat) (m : List (List Char × Nat)),
      (m.map Prod.fst).Nodup → ((buildTokensFrom i phs m).map Prod.fst).Nodup := by
  induction phs with
  | nil => intro i m h; simpa [buildTokensFrom] using h
  | cons p rest ih =>
      intro i m h
      refine ih (i + 1) (dictInsert m p i) ?_
      rw [dictInsert_keys]
      split
      · exact h
      · next hnotin =>
          apply List.Nodup.append h (List.nodup_singleton p)
          intro a ha hb
          simp only [List.mem_singleton] at hb
          exact hnotin (hb ▸ ha)

/-- C8: the token map built by `replace_placeholders` holds one entry per
distinct placeholder text (its keys are distinct), each entry carries the
index of the LAST occurrence of that text in scan order, and in the
protected output every occurrence of a repeated placeholder text shows the
last-assigned token, not a distinct token per occurrence. -/
theorem protect_last_token_per_text :
    (∀ (text ph : List Char),
        lookupD ((replace_placeholders text).2) ph
          = lastPos (findPlaceholders text) ph) ∧
    (∀ text : List Char, (((replace_placeholders text).2).map Prod.fst).Nodup) ∧
    (replace_placeholders "\x7b\x7ba\x7d\x7d x \x7b\x7ba\x7d\x7d".data).2
        = [("\x7b\x7ba\x7d\x7d".data, 1)] ∧
    (replace_placeholders "\x7b\x7ba\x7d\x7d x \x7b\x7ba\x7d\x7d".data).1
        = "@@1@@ x @@1@@".data := by
  refine ⟨fun text ph => ?_, fun text => ?_, by decide, by decide⟩
  · rw [show (replace_placeholders text).2
        = buildTokensFrom 0 (findPlaceholders text) [] from rfl]
    rw [lookupD_buildTokensFrom]
    cases lastPos (findPlaceholders text) ph <;> simp [lookupD]
  · exact buildTokensFrom_keys_nodup (findPlaceholders text) 0 [] (by simp)

/-! ### Billed-character counter -/

/-- Helper: if every successful remote call bills a non-negative amount,
the retry loop never decreases the cumulative counter. -/
theorem attemptLoop_total_mono (oracle : Oracle) (text : List Char)
    (hpos : ∀ n t r c, oracle n t = some (r, c) → 0 ≤ c) :
    ∀ (rem timeout : Nat) (st : EngineState),
      st.total_char_count
        ≤ (attemptLoop oracle text rem timeout st).2.total_char_count := by
  intro rem
  induction rem with
  | zero => intro timeout st; simp [attemptLoop]
  | succ r ih =>
      intro timeout st
      simp only [attemptLoop]
      cases ho : oracle st.callCount text with
      | some p =>
          obtain ⟨rt, c⟩ := p
          have hc := hpos _ _ _ _ ho
          simp only
          omega
      | none =>
          by_cases hr : r = 0
          · simp [hr]
          · simpa [hr] using ih (min (timeout * 5) 60)
              { st with callCount := st.callCount + 1,
                        sleeps := st.sleeps ++ [timeout] }

mutual
/-- Helper: translation never decreases the cumulative counter when the
oracle bills non-negative amounts. -/
theorem translate_total_mono (simulation : Bool) (oracle : Oracle)
    (hpos : ∀ n t r c, oracle n t = some (r, c) → 0 ≤ c)
    (d : Json) (st : EngineState) :
    st.total_char_count
      ≤ (translate_dict simulation oracle d st).2.total_char_count := by
  cases d with
  | str s =>
      simp only [translate_dict]
      split
      · split
        · rcases h : attemptLoop oracle (replace_placeholders s).1 5 1 st
            with ⟨r, st'⟩
          have := attemptLoop_total_mono oracle (replace_placeholders s).1
            hpos 5 1 st
          rw [h] at this
          cases r <;> simpa using this
        · simp
      · simp
  | intVal n => simp [translate_dict]
  | boolVal b => simp [translate_dict]
  | null => simp [translate_dict]
  | arr a => simpa [translate_dict] using translateArr_total_mono simulation oracle hpos a st
  | obj o => simpa [translate_dict] using translateObj_total_mono simulation oracle hpos o st

/-- Helper: object version of `translate_total_mono`. -/
theorem translateObj_total_mono (simulation : Bool) (oracle : Oracle)
    (hpos : ∀ n t r c, oracle n t = some (r, c) → 0 ≤ c)
    (o : JObj) (st : EngineState) :
    st.total_char_count
      ≤ (translateObj simulation oracle o st).2.total_char_count := by
  cases o with
  | nil => simp [translateObj]
  | cons k v rest =>
      have h1 := translate_total_mono simulation oracle hpos v st
      have h2 := translateObj_total_mono simulation oracle hpos rest
        (translate_dict simulation oracle v st).2
      simp only [translateObj]
      omega

/-- Helper: array version of `translate_total_mono`. -/
theorem translateArr_total_mono (simulation : Bool) (oracle : Oracle)
    (hpos : ∀ n t r c, oracle n t = some (r, c) → 0 ≤ c)
    (a : JArr) (st : EngineState) :
    st.total_char_count
      ≤ (translateArr simulation oracle a st).2.total_char_count := by
  cases a with
  | nil => simp [translateArr]
  | cons v rest =>
      have h1 := translate_total_mono simulation oracle hpos v st
      have h2 := translateArr_total_mono simulation oracle hpos rest
        (translate_dict simulation oracle v st).2
      simp only [translateArr]
      omega
end

/-- C9: the cumulative billed-character counter starts at 0, never
decreases across a `translate_dict` call when the provider bills
non-negative amounts, and is left exactly unchanged by every call made
with simulation enabled. -/
theorem char_counter_invariants :
    initEngineState.total_char_count = 0 ∧
    (∀ (simulation : Bool) (oracle : Oracle) (d : Json) (st : EngineState),
        (∀ n t r c, oracle n t = some (r, c) → 0 ≤ c) →
        st.total_char_count
          ≤ (translate_dict simulation oracle d st).2.total_char_count) ∧
    (∀ (oracle : Oracle) (d : Json) (st : EngineState),
        (translate_dict true oracle d st).2.total_char_count
          = st.total_char_count) :=
  ⟨rfl,
   fun simulation oracle d st hpos =>
     translate_total_mono simulation oracle hpos d st,
   fun oracle d st => by rw [translate_dict_sim]⟩

/-- C9 witness: monotonicity applied to a concrete always-billing oracle on
the leaf `"hi"` from a fresh session. -/
theorem char_counter_invariants_witness :
    initEngineState.total_char_count
      ≤ (translate_dict false (fun _ t => some (t, 3)) (jstr "hi")
          initEngineState).2.total_char_count :=
  char_counter_invariants.2.1 false (fun _ t => some (t, 3)) (jstr "hi")
    initEngineState
    (fun n t r c h => by
      simp only [Option.some.injEq, Prod.mk.injEq] at h
      omega)

/-! ### Placeholder round trip -/

/-- Does the text contain two adjacent `@` characters anywhere? -/
def hasDoubleAt : List Char → Bool
  | [] => false
  | [_] => false
  | c :: c' :: rest => (c = '@' && c' = '@') || hasDoubleAt (c' :: rest)

/-- Does the text start with a full temporary token `@@<digits>@@`? -/
def startsToken (s : List Char) : Bool :=
  match s with
  | '@' :: '@' :: rest =>
      let ds := rest.takeWhile fun c => c.isDigit
      decide (ds ≠ []) && listStartsWith ['@', '@'] (rest.drop ds.length)
  | _ => false

/-- Does the text contain a substring of the form `@@i@@` (`i` a number)? -/
def containsToken : List Char → Bool
  | [] => false
  | c :: rest => startsToken (c :: rest) || containsToken rest

/-- Helper: a list starts with itself followed by anything. -/
theorem listStartsWith_append (pat t : List Char) :
    listStartsWith pat (pat ++ t) = true := by
  induction pat with
  | nil => rfl
  | cons p ps ih => simpa [listStartsWith] using ih

/-- Helper: a successful start-with test exposes the tail. -/
theorem listStartsWith_exists {pat s : List Char}
    (h : listStartsWith pat s = true) : ∃ t, s = pat ++ t := by
  induction pat generalizing s with
  | nil => exact ⟨s, rfl⟩
  | cons p ps ih =>
      cases s with
      | nil => simp [listStartsWith] at h
      | cons c cs =>
          simp only [listStartsWith, Bool.and_eq_true, decide_eq_true_eq] at h
          obtain ⟨t, ht⟩ := ih h.2
          exact ⟨t, by simp [h.1, ht]⟩

/-- Helper: the fuelled replace does not depend on the fuel, as long as the
fuel covers the length of the text. -/
theorem pyReplaceFuel_congr (pat rep : List Char) :
    ∀ (f f' : Nat) (s : List Char), s.length ≤ f → s.length ≤ f' →
      pyReplaceFuel pat rep f s = pyReplaceFuel pat rep f' s := by
  intro f
  induction f with
  | zero =>
      intro f' s hf _
      have : s = [] := List.eq_nil_of_length_eq_zero (Nat.le_zero.mp hf)
      subst this
      cases f' <;> rfl
  | succ f ih =>
      intro f' s hf hf'
      cases s with
      | nil => cases f' <;> rfl
      | cons c s1 =>
          cases f' with
          | zero => simp at hf'
          | succ f'' =>
              simp only [pyReplaceFuel]
              split
              · next h =>
                  have hp : 0 < pat.length := List.length_pos.mpr h.1
                  have hl : ((c :: s1).drop pat.length).length ≤ f := by
                    simp only [List.length_drop, List.length_cons]
                    simp only [List.length_cons] at hf
                    omega
                  have hl' : ((c :: s1).drop pat.length).length ≤ f'' := by
                    simp only [List.length_drop, List.length_cons]
                    simp only [List.length_cons] at hf'
                    omega
                  rw [ih f'' _ hl hl']
              · next h =>
                  have hl : s1.length ≤ f := by
                    simp only [List.length_cons] at hf; omega
                  have hl' : s1.length ≤ f'' := by
                    simp only [List.length_cons] at hf'; omega
                  rw [ih f'' s1 hl hl']

/-- Helper: `pyReplace` on the empty text. -/
theorem pyReplace_nil (pat rep : List Char) : pyReplace pat rep [] = [] := rfl

/-- Helper: the defining one-step equation of `pyReplace`. -/
theorem pyReplace_cons (pat rep : List Char) (c : Char) (s : List Char) :
    pyReplace pat rep (c :: s) =
      if pat ≠ [] ∧ listStartsWith pat (c :: s) = true then
        rep ++ pyReplace pat rep ((c :: s).drop pat.length)
      else
        c :: pyReplace pat rep s := by
  show pyReplaceFuel pat rep (s.length + 1) (c :: s) = _
  simp only [pyReplaceFuel]
  split
  · next h =>
      have hp : 0 < pat.length := List.length_pos.mpr h.1
      rw [pyReplaceFuel_congr pat rep s.length ((c :: s).drop pat.length).length
        ((c :: s).drop pat.length) (by simp; omega) le_rfl]
      rfl
  · rfl

/-- Helper: `pyReplace` of a pattern prefix plus tail. -/
theorem pyReplace_prefix (pat rep t : List Char) (hpat : pat ≠ []) :
    pyReplace pat rep (pat ++ t) = rep ++ pyReplace pat rep t := by
  obtain ⟨p, ps, rfl⟩ : ∃ p ps, pat = p :: ps := by
    cases pat with
    | nil => exact absurd rfl hpat
    | cons p ps => exact ⟨p, ps, rfl⟩
  rw [List.cons_append, pyReplace_cons]
  rw [if_pos ⟨hpat, by rw [← List.cons_append]; exact listStartsWith_append _ t⟩]
  congr 1
  rw [← List.cons_append, List.drop_left]

/-- Helper: dropping the head preserves the absence of `@@`. -/
theorem hasDoubleAt_tail {c : Char} {s : List Char}
    (h : hasDoubleAt (c :: s) = false) : hasDoubleAt s = false := by
  cases s with
  | nil => rfl
  | cons c' rest =>
      simp only [hasDoubleAt, Bool.or_eq_false_iff] at h
      exact h.2

/-- Helper: dropping any prefix preserves the absence of `@@`. -/
theorem hasDoubleAt_drop {s : List Char} (n : Nat)
    (h : hasDoubleAt s = false) : hasDoubleAt (s.drop n) = false := by
  induction n generalizing s with
  | zero => simpa using h
  | succ n ih =>
      cases s with
      | nil => rfl
      | cons c s1 => exact ih (hasDoubleAt_tail h)

/-- Helper: no digit character is an `@`. -/
theorem digitChar_ne_at {m : Nat} (h : m < 10) : digitChar m ≠ '@' := by
  interval_cases m <;> decide

/-- Helper: every character of a decimal representation is a digit
character. -/
theorem natDigitsFuel_mem (fuel : Nat) :
    ∀ (n : Nat) (c : Char), c ∈ natDigitsFuel fuel n →
      ∃ m, m < 10 ∧ c = digitChar m := by
  induction fuel with
  | zero =>
      intro n c hc
      rw [natDigitsFuel] at hc
      split at hc
      · next h => exact ⟨n, h, by simpa using hc⟩
      · exact ⟨n % 10, Nat.mod_lt _ (by omega), by simpa using hc⟩
  | succ fuel ih =>
      intro n c hc
      rw [natDigitsFuel] at hc
      split at hc
      · next h => exact ⟨n, h, by simpa using hc⟩
      · rcases List.mem_append.mp hc with h1 | h2
        · exact ih _ _ h1
        · exact ⟨n % 10, Nat.mod_lt _ (by omega), by simpa using h2⟩

/-- Helper: a decimal representation is never empty. -/
theorem natDigits_ne_nil (n : Nat) : natDigits n ≠ [] := by
  rw [natDigits, natDigitsFuel.eq_def]
  split
  · simp
  · cases n <;> simp [natDigitsFuel]

/-- Helper: a decimal representation contains no `@`. -/
theorem natDigits_ne_at (n : Nat) : ∀ c ∈ natDigits n, c ≠ '@' := by
  intro c hc
  obtain ⟨m, hm, rfl⟩ := natDigitsFuel_mem n n c hc
  exact digitChar_ne_at hm

/-- Helper: every placeholder found by the fuelled scan starts with `{{`. -/
theorem findPlaceholdersFuel_shape :
    ∀ (fuel : Nat) (s ph : List Char), ph ∈ findPlaceholdersFuel fuel s →
      ∃ t, ph = '{' :: '{' :: t := by
  intro fuel
  induction fuel with
  | zero =>
      intro s ph h
      rw [findPlaceholdersFuel.eq_def] at h
      split at h <;> first | simp at h | omega
  | succ fuel ih =>
      intro s ph h
      rw [findPlaceholdersFuel.eq_def] at h
      split at h
      · simp at h
      · omega
      · rename_i fuel' rest' heq
        obtain rfl : fuel = fuel' := by omega
        split at h
        · rcases List.mem_cons.mp h with h1 | h2
          · exact ⟨_, h1⟩
          · exact ih _ _ h2
        · exact ih _ _ h
      · rename_i fuel' head' rest' hx heq
        obtain rfl : fuel = fuel' := by omega
        exact ih _ _ h

/-- Helper: every placeholder found by the scan starts with `{{` (and in
particular is non-empty and does not start with `@`). -/
theorem findPlaceholders_shape {s ph : List Char}
    (h : ph ∈ findPlaceholders s) : ∃ t, ph = '{' :: '{' :: t :=
  findPlaceholdersFuel_shape s.length s ph h

/-- Helper: replacing a non-empty pattern by an `@@<digits>@@` token and
then replacing the token back restores the text, provided the text has no
two adjacent `@` characters (spurious token occurrences can then never
arise at the seams of the replacements). -/
theorem pyReplace_roundtrip (ph : List Char) (d : Char) (ds' : List Char)
    (hph : ph ≠ []) (hd : d ≠ '@') :
    ∀ (n : Nat) (s : List Char), s.length ≤ n → hasDoubleAt s = false →
      pyReplace ('@' :: '@' :: ((d :: ds') ++ ['@', '@'])) ph
        (pyReplace ph ('@' :: '@' :: ((d :: ds') ++ ['@', '@'])) s) = s := by
  intro n
  induction n with
  | zero =>
      intro s hlen _
      have hs : s = [] := List.eq_nil_of_length_eq_zero (Nat.le_zero.mp hlen)
      subst hs
      rfl
  | succ n ih =>
      intro s hlen hAt
      cases s with
      | nil => rfl
      | cons c s1 =>
          rw [pyReplace_cons ph _ c s1]
          by_cases hstart : listStartsWith ph (c :: s1) = true
          · rw [if_pos ⟨hph, hstart⟩]
            obtain ⟨t, ht⟩ := listStartsWith_exists hstart
            have hdrop : (c :: s1).drop ph.length = t := by
              rw [ht, List.drop_left]
            rw [hdrop, pyReplace_prefix _ ph _ (by simp)]
            have htlen : t.length ≤ n := by
              have hlt := congrArg List.length ht
              simp only [List.length_cons, List.length_append] at hlt
              have hp : 0 < ph.length := List.length_pos.mpr hph
              simp only [List.length_cons] at hlen
              omega
            have htAt : hasDoubleAt t = false := by
              have hdt := hasDoubleAt_drop (s := c :: s1) ph.length hAt
              rwa [hdrop] at hdt
            rw [ih t htlen htAt]
            exact ht.symm
          · rw [if_neg (fun hcon => hstart hcon.2), pyReplace_cons]
            rw [if_neg ?hno]
            case hno =>
              rintro ⟨-, hsw⟩
              simp only [listStartsWith, Bool.and_eq_true, decide_eq_true_eq]
                at hsw
              obtain ⟨rfl, hsw⟩ := hsw
              cases s1 with
              | nil => simp [pyReplace_nil, listStartsWith] at hsw
              | cons c' s2 =>
                  rw [pyReplace_cons] at hsw
                  by_cases hc2 : ph ≠ [] ∧ listStartsWith ph (c' :: s2) = true
                  · rw [if_pos hc2] at hsw
                    simp only [List.cons_append, List.append_assoc,
                      listStartsWith, Bool.and_eq_true, decide_eq_true_eq]
                      at hsw
                    exact hd hsw.2.1
                  · rw [if_neg hc2] at hsw
                    simp only [listStartsWith, Bool.and_eq_true,
                      decide_eq_true_eq] at hsw
                    rw [← hsw.1] at hAt
                    simp [hasDoubleAt] at hAt
            rw [ih s1 (by simp only [List.length_cons] at hlen; omega)
              (hasDoubleAt_tail hAt)]

/-- Helper: enumerating a run of identical placeholder texts over a
singleton dict keeps the dict a singleton for that text (the stored index
is overwritten by each later occurrence). -/
theorem buildTokensFrom_all_eq (ph : List Char) :
    ∀ (l : List (List Char)), (∀ x ∈ l, x = ph) →
      ∀ (i j : Nat), ∃ j', buildTokensFrom i l [(ph, j)] = [(ph, j')] := by
  intro l
  induction l with
  | nil => intro _ i j; exact ⟨j, rfl⟩
  | cons x rest ih =>
      intro hall i j
      have hx : x = ph := hall x (List.mem_cons_self x rest)
      subst hx
      simp only [buildTokensFrom]
      have hins : dictInsert [(x, j)] x i = [(x, i)] := by simp [dictInsert]
      rw [hins]
      exact ih (fun y hy => hall y (List.mem_cons_of_mem _ hy)) (i + 1) i

/-- C2 (counterexample): the leaf `"{{a}}@@1{{a}}"` contains no substring
of the form `@@i@@`, yet restoring the protected text with the token map
does not return the original text (it yields `"{{a}}{{a}}1@@"`): the
round-trip claim fails, precisely on a text with a repeated placeholder. -/
theorem placeholder_roundtrip_cex :
    containsToken "\x7b\x7ba\x7d\x7d@@1\x7b\x7ba\x7d\x7d".data = false ∧
    restore_placeholders
        (replace_placeholders "\x7b\x7ba\x7d\x7d@@1\x7b\x7ba\x7d\x7d".data).1
        (replace_placeholders "\x7b\x7ba\x7d\x7d@@1\x7b\x7ba\x7d\x7d".data).2
      ≠ "\x7b\x7ba\x7d\x7d@@1\x7b\x7ba\x7d\x7d".data :=
  ⟨by decide, by decide⟩

/-- C2 (amended): `restore_placeholders` is the exact inverse of
`replace_placeholders` for every text that contains no two adjacent `@`
characters and whose placeholder occurrences all carry the same text — in
particular for texts in which one placeholder text occurs repeatedly. -/
theorem placeholder_roundtrip_single_distinct (text : List Char)
    (hAt : hasDoubleAt text = false)
    (hsingle : ∀ p ∈ findPlaceholders text, ∀ q ∈ findPlaceholders text,
      p = q) :
    restore_placeholders (replace_placeholders text).1
      (replace_placeholders text).2 = text := by
  cases hf : findPlaceholders text with
  | nil =>
      simp [replace_placeholders, restore_placeholders, buildTempTokens,
        buildTokensFrom, hf]
  | cons ph rest =>
      have hall : ∀ x ∈ ph :: rest, x = ph := by
        intro x hx
        exact hsingle x (hf ▸ hx) ph (hf ▸ List.mem_cons_self ph rest)
      obtain ⟨t0, hsh⟩ :=
        findPlaceholders_shape (hf ▸ List.mem_cons_self ph rest)
      obtain ⟨j, hbt⟩ := buildTokensFrom_all_eq ph rest
        (fun y hy => hall y (List.mem_cons_of_mem _ hy)) 1 0
      have hbt' : buildTempTokens (ph :: rest) = [(ph, j)] := by
        rw [buildTempTokens]
        simp only [buildTokensFrom]
        exact hbt
      have hprot : (replace_placeholders text).1
          = pyReplace ph (tempToken j) text := by
        simp [replace_placeholders, hf, hbt']
      have hmap : (replace_placeholders text).2 = [(ph, j)] := by
        simp [replace_placeholders, hf, hbt']
      rw [hprot, hmap]
      simp only [restore_placeholders, List.foldl]
      obtain ⟨d, ds', hds⟩ : ∃ d ds', natDigits j = d :: ds' := by
        cases hnd : natDigits j with
        | nil => exact absurd hnd (natDigits_ne_nil j)
        | cons d ds' => exact ⟨d, ds', rfl⟩
      have hd : d ≠ '@' := natDigits_ne_at j d (hds ▸ List.mem_cons_self d ds')
      have hphne : ph ≠ [] := by rw [hsh]; simp
      have hrt := pyReplace_roundtrip ph d ds' hphne hd text.length text
        le_rfl hAt
      rw [tempToken, hds]
      exact hrt

/-- C2 witness: the amended round trip on a text with the same placeholder
occurring twice and no adjacent `@` characters. -/
theorem placeholder_roundtrip_single_distinct_witness :
    hasDoubleAt "x \x7b\x7bn\x7d\x7d y \x7b\x7bn\x7d\x7d z".data = false ∧
    restore_placeholders
        (replace_placeholders "x \x7b\x7bn\x7d\x7d y \x7b\x7bn\x7d\x7d z".data).1
        (replace_placeholders "x \x7b\x7bn\x7d\x7d y \x7b\x7bn\x7d\x7d z".data).2
      = "x \x7b\x7bn\x7d\x7d y \x7b\x7bn\x7d\x7d z".data :=
  ⟨by decide,
   placeholder_roundtrip_single_distinct "x \x7b\x7bn\x7d\x7d y \x7b\x7bn\x7d\x7d z".data
     (by decide) (by decide)⟩
